import Mathlib

/-!
Verification of the daily equity-trading decision pipeline.

Shallow embedding of the three algorithmic components the claims are about:

* `clean_corporate_events` (corporate_cleaner.py): per-symbol anomaly flags,
  bad-tick removal and pre/post corporate-event segmentation.
* `live_trade_decision` (trade_engine.py): champion–challenger trade selection.
* `integrate_regimes` / `map_reg` (regime_engine.py): regime-id lookup with a
  decision-date cutoff.

Conventions of the embedding:
* pandas numeric (float) columns are modeled as `ℚ`; the `to_numeric` coercion
  is assumed to have succeeded (missing/NaN numeric cells are not modeled).
* quantities that pandas leaves as NaN *structurally* (a `pct_change` at the
  start of a series, a `shift(-1)` at its end, a model that raises) are modeled
  as `Option` values, and a comparison against a NaN is `false`, as in numpy.
* dates are modeled as `Int` (order is all the code uses).
* `DataFrame`s are lists of rows; sorting is a sort w.r.t. the pandas key.
-/

namespace StockPipeline

/-! ## Data model: one row of the master price table (canonical Bar fields) -/

/-- A row of the master table after numeric coercion, restricted to the
canonical columns that `clean_corporate_events` returns. -/
structure Bar where
  SYMBOL : String
  DATE : Int
  OPEN_PRICE : ℚ
  HIGH_PRICE : ℚ
  LOW_PRICE : ℚ
  LAST_PRICE : ℚ
  CLOSE_PRICE : ℚ
  AVG_PRICE : ℚ
  TTL_TRD_QNTY : ℚ
  TURNOVER_LACS : ℚ
  NO_OF_TRADES : ℚ
  DELIV_QTY : ℚ
  DELIV_PER : ℚ
deriving DecidableEq

/-- Convenience constructor for concrete inputs: only the fields the cleaning
logic inspects (symbol, date, close) vary, the other numeric columns are 0. -/
def mkBar (s : String) (d : Int) (c : ℚ) : Bar :=
  ⟨s, d, 0, 0, 0, 0, c, 0, 0, 0, 0, 0, 0⟩

/-- The pandas sort key of `df.sort_values(["SYMBOL", "DATE"])`:
lexicographic on (symbol, date), with strings compared lexicographically. -/
def barLE (a b : Bar) : Prop :=
  a.SYMBOL.data < b.SYMBOL.data ∨ (a.SYMBOL = b.SYMBOL ∧ a.DATE ≤ b.DATE)

instance : DecidableRel barLE := fun a b => by
  unfold barLE; infer_instance

/-- `df = df.sort_values(["SYMBOL", "DATE"])` (line 31 of corporate_cleaner.py). -/
def sortRows (rows : List Bar) : List Bar :=
  List.insertionSort barLE rows

/-- distinct symbols of a (sorted) frame, as iterated by `df.groupby("SYMBOL")`. -/
def symbolsOf (rows : List Bar) : List String :=
  (rows.map Bar.SYMBOL).dedup

/-- the rows of one symbol group of the sorted frame. -/
def groupOf (master : List Bar) (s : String) : List Bar :=
  (sortRows master).filter (fun b => b.SYMBOL == s)

/-- the close-price series of a group. -/
def closesOf (bars : List Bar) : List ℚ :=
  bars.map Bar.CLOSE_PRICE

/-! ## Anomaly flags (corporate_cleaner.py lines 37–70)

All flags are per-symbol: `pct_change`, `shift` and the `post_stable` loop are
groupby operations, so they only ever look at one symbol's close series. -/

/-- `groupby("SYMBOL")["CLOSE_PRICE"].pct_change(n)` at position `t` of the
group: `close[t]/close[t-n] - 1`, `none` (NaN) for the first `n` positions. -/
def pctChange (n : Nat) (closes : List ℚ) (t : Nat) : Option ℚ :=
  if t < n then none
  else
    match closes[t]?, closes[t - n]? with
    | some c, some p => some (c / p - 1)
    | _, _ => none

/-- `ret_1d` column. -/
def ret_1d (closes : List ℚ) (t : Nat) : Option ℚ :=
  pctChange 1 closes t

/-- `ret_2d` column. -/
def ret_2d (closes : List ℚ) (t : Nat) : Option ℚ :=
  pctChange 2 closes t

/-- `x.abs() > c` where `x` may be NaN: a comparison with NaN is `false`. -/
def optAbsGt (x : Option ℚ) (c : ℚ) : Bool :=
  match x with
  | none => false
  | some v => decide (|v| > c)

/-- `x.abs() < c` where `x` may be NaN: a comparison with NaN is `false`. -/
def optAbsLt (x : Option ℚ) (c : ℚ) : Bool :=
  match x with
  | none => false
  | some v => decide (|v| < c)

/-- `abnormal_jump = (ret_1d.abs() > 0.40) | (ret_2d.abs() > 0.60)`. -/
def abnormal_jump (closes : List ℚ) (t : Nat) : Bool :=
  optAbsGt (ret_1d closes t) (40 / 100) || optAbsGt (ret_2d closes t) (60 / 100)

/-- `post_stable`: initialised to `False` and set (only at abnormal positions
`i`, by the per-symbol loop) when `i + 5 < len(sub)` and all of
`close[i+1..i+5]` are within ±10% of `base = close[i+1]`. -/
def post_stable (closes : List ℚ) (t : Nat) : Bool :=
  abnormal_jump closes t && decide (t + 5 < closes.length) &&
    ((List.range 5).all fun j =>
      match closes[t + 1]?, closes[t + 1 + j]? with
      | some base, some c => decide (|c / base - 1| < 10 / 100)
      | _, _ => false)

/-- `suspected_corp_event = abnormal_jump & post_stable`. -/
def suspected_corp_event (closes : List ℚ) (t : Nat) : Bool :=
  abnormal_jump closes t && post_stable closes t

/-- `suspected_bad_tick = (ret_1d.abs() > 0.8) & (groupby shift(-1) ret_1d.abs() < 0.1)`;
at the last row of a group the shifted value is NaN, so the flag is `false`. -/
def suspected_bad_tick (closes : List ℚ) (t : Nat) : Bool :=
  optAbsGt (ret_1d closes t) (8 / 10) && optAbsLt (ret_1d closes (t + 1)) (1 / 10)

/-! ## Bad-tick filter and pre/post segmentation (lines 72–107) -/

/-- gap of dropped bars on each side of a split (`GAP_DAYS = 10`). -/
def GAP_DAYS : Nat := 10

/-- the exclusion allow-list (`EXCLUDE_SPLIT = ["BRITANNIA"]`). -/
def EXCLUDE_SPLIT : List String := ["BRITANNIA"]

/-- `sub = sub[~sub["suspected_bad_tick"]]` keeping each surviving row's
original position in the group (the flag columns travel with the rows). -/
def keptPairs (bars : List Bar) : List (Nat × Bar) :=
  bars.enum.filter fun p => !suspected_bad_tick (closesOf bars) p.1

/-- the bad-tick-filtered rows of a group (`sub` after `reset_index`). -/
def subOf (bars : List Bar) : List Bar :=
  (keptPairs bars).map Prod.snd

/-- `events = sub.index[sub["suspected_corp_event"]]`: positions *in the
filtered frame* whose carried corporate-event flag (computed at the original
position, before removal) is set. -/
def eventPositions (bars : List Bar) : List Nat :=
  ((keptPairs bars).enum.filter fun q =>
    suspected_corp_event (closesOf bars) q.2.1).map Prod.fst

/-- relabeling used when a split half is emitted. -/
def setSymbol (s : String) (b : Bar) : Bar :=
  { b with SYMBOL := s }

/-- the rows emitted for one symbol group: drop bad ticks; an excluded symbol
is never split; otherwise split around the first corporate-event position with
`pre = sub[: idx - GAP]` and `post = sub[idx + GAP + 1 :]`, relabeled
`SYM_PRE` / `SYM_POST` (an empty half contributes nothing). -/
def cleanSymbol (sym : String) (bars : List Bar) : List Bar :=
  if sym ∈ EXCLUDE_SPLIT then subOf bars
  else
    match (eventPositions bars).head? with
    | none => subOf bars
    | some idx =>
        ((subOf bars).take (idx - GAP_DAYS)).map (setSymbol (sym ++ "_PRE")) ++
        ((subOf bars).drop (idx + GAP_DAYS + 1)).map (setSymbol (sym ++ "_POST"))

/-- `clean_corporate_events`: sort by (symbol, date), process every symbol
group independently, concatenate the emitted series. -/
def clean_corporate_events (master : List Bar) : List Bar :=
  ((symbolsOf (sortRows master)).map fun s =>
    cleanSymbol s (groupOf master s)).flatten

/-- rows with pairwise-distinct (SYMBOL, DATE) keys. -/
def keyNe (a b : Bar) : Prop :=
  (a.SYMBOL, a.DATE) ≠ (b.SYMBOL, b.DATE)

instance : DecidableRel keyNe := fun a b => by
  unfold keyNe; infer_instance

/-- no input symbol name collides with the `_PRE` / `_POST` label namespace of
another input symbol (labels of emitted series identify their source symbol). -/
def labelsFree (master : List Bar) : Prop :=
  ∀ s ∈ symbolsOf (sortRows master), ∀ t ∈ symbolsOf (sortRows master),
    s ≠ t ++ "_PRE" ∧ s ≠ t ++ "_POST"

instance (master : List Bar) : Decidable (labelsFree master) := by
  unfold labelsFree; infer_instance

/-! ## Regime tagging (regime_engine.py)

The regime table rows carry `[start_date, end_date]` ranges and a regime id;
the second static table maps a regime id to its macro-cluster id. -/

/-- one row of `regimes_from_breakpoints.csv`. -/
structure RegimeRow where
  start_date : Int
  end_date : Int
  regime_id : Int
deriving DecidableEq

/-- one row of `regime_to_macro_mapping.csv`. -/
structure GroupRow where
  regime_id : Int
  mgroup : Int
deriving DecidableEq

/-- `map_reg` inside `integrate_regimes`: a date strictly after the cutoff gets
NaN; otherwise the regime id of the first table row whose inclusive
`[start_date, end_date]` range contains the date, NaN when none matches. -/
def map_reg (reg : List RegimeRow) (cutoff : Int) (d : Int) : Option Int :=
  if d > cutoff then none
  else
    ((reg.filter fun r => decide (r.start_date ≤ d) && decide (d ≤ r.end_date)).head?).map
      RegimeRow.regime_id

/-- `df["regime"].map(mac.set_index("regime_id")["macro_group"])` for one
regime id: the macro-cluster id of the matching mapping row. -/
def lookupGroup (mac : List GroupRow) (rid : Int) : Option Int :=
  ((mac.filter fun m => m.regime_id == rid).head?).map GroupRow.mgroup

/-- a cleaned row together with its regime and macro-cluster tags. -/
structure TaggedBar where
  bar : Bar
  regime : Option Int
  mgroup : Option Int
deriving DecidableEq

/-- `integrate_regimes`: tag every row of the frame. -/
def integrate_regimes (df : List Bar) (reg : List RegimeRow) (mac : List GroupRow)
    (cutoff : Int) : List TaggedBar :=
  df.map fun b =>
    { bar := b
      regime := map_reg reg cutoff b.DATE
      mgroup := (map_reg reg cutoff b.DATE).bind (lookupGroup mac) }

/-! ## Trade selection (trade_engine.py)

The model registry of trained per-macro-cluster models is loaded from disk
(`MODEL_DIR` scan); the embedding takes it as the input association list
`models : List (Int × Model)` (dict keys are unique, see `Nodup` hypotheses).
A model is the opaque capability `predict`; `none` models a prediction that
raises (the cluster is then skipped), and a prediction of the wrong length
(which would make the pandas column assignment raise) is also a failure. -/

/-- configured number of selected rows (`TOP_K = 5` in config.py). -/
def TOP_K : Nat := 5

/-- a row of the feature snapshot: symbol, date and the 9 `FEATURES` columns
(`none` = NaN from insufficient history). -/
structure FeatRow where
  SYMBOL : String
  DATE : Int
  feats : List (Option ℚ)
deriving DecidableEq

/-- an opaque trained model: `predict` over the `FEATURES` sub-frame. -/
structure Model where
  predict : List (List (Option ℚ)) → Option (List ℚ)

/-- `snap = df_feat[df_feat["DATE"] == decision_date].dropna(subset=FEATURES)`. -/
def snapshotOf (df : List FeatRow) (decision_date : Int) : List FeatRow :=
  (df.filter fun r => r.DATE == decision_date).filter fun r => r.feats.all Option.isSome

/-- `tmp[FEATURES]`, the matrix handed to `model.predict`. -/
def featMatrix (snap : List FeatRow) : List (List (Option ℚ)) :=
  snap.map FeatRow.feats

/-- `sort_values(["pred", "SYMBOL"], ascending=[False, True])`: predicted score
descending, ties broken by symbol ascending (lexicographic). -/
def rankLE (a b : FeatRow × ℚ) : Prop :=
  b.2 < a.2 ∨ (a.2 = b.2 ∧ (a.1.SYMBOL.data ≤ b.1.SYMBOL.data))

instance : DecidableRel rankLE := fun a b => by
  unfold rankLE; infer_instance

/-- the snapshot rows with their predictions, ranked. -/
def rankRows (snap : List FeatRow) (preds : List ℚ) : List (FeatRow × ℚ) :=
  List.insertionSort rankLE (snap.zip preds)

/-- `topk["pred"].mean()`. -/
def meanQ (l : List ℚ) : ℚ :=
  l.sum / l.length

/-- one cluster's scoring attempt: `none` when the model raises (or returns a
wrong-length prediction); otherwise the cluster's mean top-K score and its
top-K ranked rows. -/
def scoreCluster (snap : List FeatRow) (m : Model) : Option (ℚ × List (FeatRow × ℚ)) :=
  match m.predict (featMatrix snap) with
  | none => none
  | some preds =>
      if preds.length = snap.length then
        some (meanQ (((rankRows snap preds).take TOP_K).map Prod.snd),
          (rankRows snap preds).take TOP_K)
      else none

/-- `cluster_scores` / `cluster_topk`: the clusters that produced a usable
prediction, in registry order, with their mean score and top-K rows. -/
def scoredClusters (models : List (Int × Model)) (snap : List FeatRow) :
    List (Int × ℚ × List (FeatRow × ℚ)) :=
  models.filterMap fun p => (scoreCluster snap p.2).map fun r => (p.1, r.1, r.2)

/-- one comparison step of python's `max`: the running best is replaced only
when the candidate's key is strictly greater. -/
def better (best y : Int × ℚ × List (FeatRow × ℚ)) : Int × ℚ × List (FeatRow × ℚ) :=
  if best.2.1 < y.2.1 then y else best

/-- `max(cluster_scores, key=cluster_scores.get)`: the first entry attaining
the maximal score (python `max` only replaces on a strictly greater key). -/
def argmaxFirst (l : List (Int × ℚ × List (FeatRow × ℚ))) :
    Option (Int × ℚ × List (FeatRow × ℚ)) :=
  match l with
  | [] => none
  | x :: xs => some (xs.foldl better x)

/-- a row of the final trade sheet. -/
structure TradeRow where
  SYMBOL : String
  pred : ℚ
  weight : ℚ
  entry_date : Int
  cluster : Int
deriving DecidableEq

/-- final ordering of the trade sheet: `sort_values("pred", ascending=False)`. -/
def predGE (a b : TradeRow) : Prop :=
  b.pred ≤ a.pred

instance : DecidableRel predGE := fun a b => by
  unfold predGE; infer_instance

/-- the champion's top-K rows with weight `1/TOP_K`, the supplied entry date
and the champion's cluster id, sorted by score descending. -/
def tradeSheet (champion : Int) (topk : List (FeatRow × ℚ)) (entry_date : Int) :
    List TradeRow :=
  List.insertionSort predGE
    (topk.map fun rp =>
      { SYMBOL := rp.1.SYMBOL
        pred := rp.2
        weight := 1 / (TOP_K : ℚ)
        entry_date := entry_date
        cluster := champion })

/-- `live_trade_decision`: snapshot at the decision date, score every cluster,
pick the champion, assemble the trade sheet; the three fatal conditions are
the `raise`s of the source. -/
def live_trade_decision (df : List FeatRow) (models : List (Int × Model))
    (decision_date entry_date : Int) : Except String (List TradeRow) :=
  if (snapshotOf df decision_date).isEmpty then
    .error "No data available on Selected Decision Date"
  else if models.isEmpty then
    .error "No trained models found. Please train models first."
  else
    match argmaxFirst (scoredClusters models (snapshotOf df decision_date)) with
    | none => .error "Failed to generate predictions for any macro group."
    | some c => .ok (tradeSheet c.1 c.2.2 entry_date)

/-! ## Concrete inputs used by the witnesses -/

/-- a one-symbol series from a close list: dates are the positions. -/
def seriesOf (s : String) (closes : List ℚ) : List Bar :=
  closes.enum.map fun p => mkBar s p.1 p.2

/-- closes exhibiting a corporate event at position 11 (a +50% jump followed
by a stable window): 11 bars at 100 then 12 bars at 150. -/
def splitCloses : List ℚ :=
  [100, 100, 100, 100, 100, 100, 100, 100, 100, 100, 100,
   150, 150, 150, 150, 150, 150, 150, 150, 150, 150, 150, 150]

/-- closes whose bar 2 is abnormal with a confirmed stable window. -/
def stableCloses : List ℚ :=
  [100, 100, 150, 150, 150, 150, 150, 150]

/-- a snapshot row with all features present. -/
def mkFeatRow (s : String) (d : Int) : FeatRow :=
  ⟨s, d, [some 0, some 0, some 0, some 0, some 0, some 0, some 0, some 0, some 0]⟩

/-- a model that predicts the constant score `q` for every row. -/
def constModel (q : ℚ) : Model :=
  ⟨fun rows => some (rows.map fun _ => q)⟩

/-- a model whose prediction raises on any input. -/
def failingModel : Model :=
  ⟨fun _ => none⟩

/-! ## Order-theoretic facts about the sort keys -/

instance : IsTotal Bar barLE := by
  constructor
  intro a b
  rcases lt_trichotomy a.SYMBOL.data b.SYMBOL.data with h | h | h
  · exact Or.inl (Or.inl h)
  · have hs : a.SYMBOL = b.SYMBOL := String.ext h
    rcases le_total a.DATE b.DATE with hd | hd
    · exact Or.inl (Or.inr ⟨hs, hd⟩)
    · exact Or.inr (Or.inr ⟨hs.symm, hd⟩)
  · exact Or.inr (Or.inl h)

instance : IsTrans Bar barLE := by
  constructor
  intro a b c hab hbc
  rcases hab with h1 | ⟨e1, d1⟩
  · rcases hbc with h2 | ⟨e2, d2⟩
    · exact Or.inl (lt_trans h1 h2)
    · exact Or.inl (e2 ▸ h1)
  · rcases hbc with h2 | ⟨e2, d2⟩
    · exact Or.inl (e1 ▸ h2)
    · exact Or.inr ⟨e1.trans e2, le_trans d1 d2⟩

theorem sorted_sortRows (rows : List Bar) : List.Sorted barLE (sortRows rows) :=
  List.sorted_insertionSort barLE rows

theorem perm_sortRows (rows : List Bar) : (sortRows rows).Perm rows :=
  List.perm_insertionSort barLE rows

/-! ## Basic structure of the cleaning pass -/

theorem subOf_sublist (bars : List Bar) : (subOf bars).Sublist bars := by
  have h1 : (keptPairs bars).Sublist bars.enum := List.filter_sublist _
  have h2 := h1.map Prod.snd
  rwa [List.enum_map_snd] at h2

theorem mem_subOf {bars : List Bar} {b : Bar} (h : b ∈ subOf bars) : b ∈ bars :=
  (subOf_sublist bars).subset h

/-- Claim C3 theorem. For a bar flagged abnormal at position `i` of its
symbol's close series, `post_stable` holds iff at least 5 bars follow `i` and
each close at positions `i+1..i+5` is within ±10% of the close at `i+1`;
with fewer than 5 future bars it is `false`. -/
theorem post_stable_characterisation (closes : List ℚ) (i : Nat)
    (h : abnormal_jump closes i = true) :
    (post_stable closes i = true ↔
      (i + 5 < closes.length ∧
        ∀ j, i + 1 ≤ j → j ≤ i + 5 →
          ∀ base c, closes[i + 1]? = some base → closes[j]? = some c →
            |c / base - 1| < 10 / 100)) ∧
    (closes.length ≤ i + 5 → post_stable closes i = false) := by
  constructor
  · simp only [post_stable, h, Bool.true_and, Bool.and_eq_true, decide_eq_true_eq,
      List.all_eq_true, List.mem_range]
    constructor
    · rintro ⟨hlen, hall⟩
      refine ⟨hlen, ?_⟩
      intro j hj1 hj2 base c hbase hc
      have hjr : j - (i + 1) < 5 := by omega
      have := hall _ hjr
      have hidx : i + 1 + (j - (i + 1)) = j := by omega
      rw [hidx, hbase, hc] at this
      simpa using this
    · rintro ⟨hlen, hall⟩
      refine ⟨hlen, ?_⟩
      intro j hj
      have h1 : i + 1 < closes.length := by omega
      have h2 : i + 1 + j < closes.length := by omega
      rw [List.getElem?_eq_getElem h1, List.getElem?_eq_getElem h2]
      simpa using hall (i + 1 + j) (by omega) (by omega) _ _
        (List.getElem?_eq_getElem h1) (List.getElem?_eq_getElem h2)
  · intro hlen
    have hd : decide (i + 5 < closes.length) = false := by
      simp only [decide_eq_false_iff_not]
      omega
    simp only [post_stable, h, Bool.true_and, hd, Bool.false_and]

/-- Claim C3 witness: the series `stableCloses` has an abnormal jump at
position 2 whose stability window confirms it. -/
theorem post_stable_characterisation_witness :
    abnormal_jump stableCloses 2 = true ∧
    ((post_stable stableCloses 2 = true ↔
      (2 + 5 < stableCloses.length ∧
        ∀ j, 2 + 1 ≤ j → j ≤ 2 + 5 →
          ∀ base c, stableCloses[2 + 1]? = some base → stableCloses[j]? = some c →
            |c / base - 1| < 10 / 100)) ∧
    (stableCloses.length ≤ 2 + 5 → post_stable stableCloses 2 = false)) :=
  ⟨by with_unfolding_all decide,
    post_stable_characterisation stableCloses 2 (by with_unfolding_all decide)⟩

/-- Claim C9 theorem. A symbol on the exclusion allow-list is never split:
its emitted series is exactly its bad-tick-filtered rows, every row keeping
the original symbol label — regardless of any flags on its bars. -/
theorem exclude_split_never_split (s : String) (bars : List Bar)
    (h : s ∈ EXCLUDE_SPLIT) (hg : ∀ x ∈ bars, x.SYMBOL = s) :
    cleanSymbol s bars = subOf bars ∧ ∀ b ∈ cleanSymbol s bars, b.SYMBOL = s := by
  have he : cleanSymbol s bars = subOf bars := by
    unfold cleanSymbol
    rw [if_pos h]
  refine ⟨he, ?_⟩
  intro b hb
  rw [he] at hb
  exact hg b (mem_subOf hb)

/-- Claim C9 witness: `BRITANNIA` with a series containing a genuine
corporate-event jump (the same one that splits other symbols) is not split. -/
theorem exclude_split_never_split_witness :
    ("BRITANNIA" ∈ EXCLUDE_SPLIT ∧
      (eventPositions (seriesOf "BRITANNIA" splitCloses)).head? = some 11) ∧
    (cleanSymbol "BRITANNIA" (seriesOf "BRITANNIA" splitCloses) =
        subOf (seriesOf "BRITANNIA" splitCloses) ∧
      ∀ b ∈ cleanSymbol "BRITANNIA" (seriesOf "BRITANNIA" splitCloses),
        b.SYMBOL = "BRITANNIA") :=
  ⟨⟨by with_unfolding_all decide, by with_unfolding_all decide⟩,
    exclude_split_never_split "BRITANNIA" (seriesOf "BRITANNIA" splitCloses)
      (by with_unfolding_all decide) (by with_unfolding_all decide)⟩

/-! ## Label arithmetic: `_PRE` / `_POST` labels identify their source symbol -/

theorem string_append_right_inj {a b : String} (t : String) (h : a ++ t = b ++ t) :
    a = b := by
  apply String.ext
  have hd := congrArg String.data h
  rw [String.data_append, String.data_append] at hd
  exact List.append_cancel_right hd

theorem string_PRE_ne_POST (a b : String) : a ++ "_PRE" ≠ b ++ "_POST" := by
  intro h
  have hd := congrArg (fun s => s.data.reverse) h
  simp only [String.data_append, List.reverse_append] at hd
  have h1 : ("_PRE" : String).data.reverse = ['E', 'R', 'P', '_'] := by decide
  have h2 : ("_POST" : String).data.reverse = ['T', 'S', 'O', 'P', '_'] := by decide
  rw [h1, h2] at hd
  simp only [List.cons_append, List.cons.injEq] at hd
  exact absurd hd.1 (by decide)

theorem string_PRE_ne_POST_same (s : String) : s ++ "_PRE" ≠ s ++ "_POST" := by
  intro h
  have hd := congrArg String.data h
  rw [String.data_append, String.data_append] at hd
  have h2 := List.append_cancel_left hd
  exact absurd h2 (by decide)

/-! ## Facts about symbol groups of the sorted master frame -/

theorem mem_groupOf {master : List Bar} {s : String} {b : Bar}
    (h : b ∈ groupOf master s) : b.SYMBOL = s := by
  have h2 := (List.mem_filter.mp h).2
  exact beq_iff_eq.mp h2

theorem mem_sorted_of_mem_groupOf {master : List Bar} {s : String} {b : Bar}
    (h : b ∈ groupOf master s) : b ∈ sortRows master :=
  (List.mem_filter.mp h).1

theorem symbol_mem_symbolsOf {master : List Bar} {s : String}
    (h : groupOf master s ≠ []) : s ∈ symbolsOf (sortRows master) := by
  rcases List.exists_mem_of_ne_nil _ h with ⟨b, hb⟩
  rw [symbolsOf, List.mem_dedup]
  exact List.mem_map.mpr ⟨b, mem_sorted_of_mem_groupOf hb, mem_groupOf hb⟩

theorem groupOf_pairwise_barLE (master : List Bar) (s : String) :
    (groupOf master s).Pairwise barLE :=
  List.Pairwise.filter _ (sorted_sortRows master)

theorem keyNe_symm {a b : Bar} (h : keyNe a b) : keyNe b a :=
  Ne.symm h

theorem sortRows_pairwise_keyNe {master : List Bar} (huniq : master.Pairwise keyNe) :
    (sortRows master).Pairwise keyNe :=
  ((perm_sortRows master).pairwise_iff fun h => keyNe_symm h).mpr huniq

theorem groupOf_pairwise_dateLT {master : List Bar} (s : String)
    (huniq : master.Pairwise keyNe) :
    (groupOf master s).Pairwise fun a b => a.DATE < b.DATE := by
  have h1 : (groupOf master s).Pairwise keyNe :=
    List.Pairwise.filter _ (sortRows_pairwise_keyNe huniq)
  have h2 := groupOf_pairwise_barLE master s
  refine (h1.and h2).imp_of_mem ?_
  intro a b ha hb hab
  rcases hab with ⟨hne, hle | ⟨hse, hdle⟩⟩
  · rw [mem_groupOf ha, mem_groupOf hb] at hle
    exact absurd hle (lt_irrefl _)
  · refine lt_of_le_of_ne hdle ?_
    intro hd
    exact hne (by rw [hse, hd])

/-! ## Structure of one symbol's emitted rows -/

theorem setSymbol_SYMBOL (s : String) (b : Bar) : (setSymbol s b).SYMBOL = s := rfl

theorem setSymbol_DATE (s : String) (b : Bar) : (setSymbol s b).DATE = b.DATE := rfl

/-- every emitted row of a symbol group is a surviving row, possibly relabeled
`_PRE` or `_POST`. -/
theorem mem_cleanSymbol {s : String} {bars : List Bar} {b : Bar}
    (h : b ∈ cleanSymbol s bars) :
    b ∈ subOf bars ∨ (∃ o ∈ subOf bars, b = setSymbol (s ++ "_PRE") o) ∨
      ∃ o ∈ subOf bars, b = setSymbol (s ++ "_POST") o := by
  unfold cleanSymbol at h
  split at h
  · exact Or.inl h
  · split at h
    · exact Or.inl h
    · rcases List.mem_append.mp h with hp | hp
      · rcases List.mem_map.mp hp with ⟨o, ho, rfl⟩
        exact Or.inr (Or.inl ⟨o, (List.take_sublist _ _).subset ho, rfl⟩)
      · rcases List.mem_map.mp hp with ⟨o, ho, rfl⟩
        exact Or.inr (Or.inr ⟨o, (List.drop_sublist _ _).subset ho, rfl⟩)

/-- the label of an emitted row of a symbol group. -/
theorem cleanSymbol_label {s : String} {bars : List Bar} {b : Bar}
    (h : b ∈ cleanSymbol s bars) (hg : ∀ x ∈ bars, x.SYMBOL = s) :
    b.SYMBOL = s ∨ b.SYMBOL = s ++ "_PRE" ∨ b.SYMBOL = s ++ "_POST" := by
  rcases mem_cleanSymbol h with hb | ⟨o, -, rfl⟩ | ⟨o, -, rfl⟩
  · exact Or.inl (hg b (mem_subOf hb))
  · exact Or.inr (Or.inl rfl)
  · exact Or.inr (Or.inr rfl)

/-- two distinct input symbols can never emit rows with the same label. -/
theorem label_distinct {master : List Bar} (hc : labelsFree master)
    {s1 s2 L1 L2 : String}
    (hs1 : s1 ∈ symbolsOf (sortRows master)) (hs2 : s2 ∈ symbolsOf (sortRows master))
    (hne : s1 ≠ s2)
    (hl1 : L1 = s1 ∨ L1 = s1 ++ "_PRE" ∨ L1 = s1 ++ "_POST")
    (hl2 : L2 = s2 ∨ L2 = s2 ++ "_PRE" ∨ L2 = s2 ++ "_POST") :
    L1 ≠ L2 := by
  rcases hl1 with h1 | h1 | h1 <;> rcases hl2 with h2 | h2 | h2 <;> rw [h1, h2]
  · exact hne
  · exact (hc s1 hs1 s2 hs2).1
  · exact (hc s1 hs1 s2 hs2).2
  · exact fun h => (hc s2 hs2 s1 hs1).1 h.symm
  · exact fun h => hne (string_append_right_inj _ h)
  · exact string_PRE_ne_POST s1 s2
  · exact fun h => (hc s2 hs2 s1 hs1).2 h.symm
  · exact fun h => (string_PRE_ne_POST s2 s1) h.symm
  · exact fun h => hne (string_append_right_inj _ h)

/-- cross-symbol form of `label_distinct` at the level of emitted rows. -/
theorem cleanSymbol_label_disjoint {master : List Bar} (hc : labelsFree master)
    {s1 s2 : String}
    (hs1 : s1 ∈ symbolsOf (sortRows master)) (hs2 : s2 ∈ symbolsOf (sortRows master))
    (hne : s1 ≠ s2) {b1 b2 : Bar}
    (hb1 : b1 ∈ cleanSymbol s1 (groupOf master s1))
    (hb2 : b2 ∈ cleanSymbol s2 (groupOf master s2)) :
    b1.SYMBOL ≠ b2.SYMBOL :=
  label_distinct hc hs1 hs2 hne
    (cleanSymbol_label hb1 fun _ hx => mem_groupOf hx)
    (cleanSymbol_label hb2 fun _ hx => mem_groupOf hx)

theorem take_append_drop_sublist {α : Type} {n m : Nat} (l : List α) (h : n ≤ m) :
    (l.take n ++ l.drop m).Sublist l := by
  have h1 : l.drop m = List.drop (m - n) (l.drop n) := by
    rw [List.drop_drop]
    congr 1
    omega
  have h2 : (l.take n ++ l.drop m).Sublist (l.take n ++ l.drop n) := by
    rw [h1]
    exact (List.drop_sublist _ _).append_left _
  rw [List.take_append_drop n l] at h2
  exact h2

/-- a symbol's emitted rows are strictly date-increasing whenever its group
is (relabeling does not change dates, and both split halves keep their
relative order around the dropped gap). -/
theorem cleanSymbol_pairwise_dateLT {s : String} {bars : List Bar}
    (hd : bars.Pairwise fun a b => a.DATE < b.DATE) :
    (cleanSymbol s bars).Pairwise fun a b => a.DATE < b.DATE := by
  have hsub : (subOf bars).Pairwise fun a b => a.DATE < b.DATE :=
    List.Pairwise.sublist (subOf_sublist bars) hd
  unfold cleanSymbol
  split
  · exact hsub
  · split
    · exact hsub
    · rename_i idx _
      have base : ((subOf bars).take (idx - GAP_DAYS) ++
          (subOf bars).drop (idx + GAP_DAYS + 1)).Pairwise
            fun a b => a.DATE < b.DATE :=
        List.Pairwise.sublist (take_append_drop_sublist _ (by omega)) hsub
      rcases List.pairwise_append.mp base with ⟨pA, pB, cross⟩
      refine List.pairwise_append.mpr ⟨?_, ?_, ?_⟩
      · exact List.pairwise_map.mpr (pA.imp fun h => h)
      · exact List.pairwise_map.mpr (pB.imp fun h => h)
      · intro x hx y hy
        rcases List.mem_map.mp hx with ⟨a, ha, rfl⟩
        rcases List.mem_map.mp hy with ⟨b, hb, rfl⟩
        exact cross a ha b hb

theorem keyNe_of_dateLT {a b : Bar} (h : a.DATE < b.DATE) : keyNe a b := by
  intro he
  rw [Prod.mk.injEq] at he
  exact absurd (he.2 ▸ h) (lt_irrefl _)

/-- Claim C2 amended theorem. If the input master rows have pairwise-distinct
(SYMBOL, DATE) keys and no input symbol collides with the `_PRE`/`_POST`
label namespace of another, then the cleaned output has pairwise-distinct
(SYMBOL, DATE) keys, and within each output symbol label the rows are sorted
strictly ascending by date. -/
theorem clean_unique_and_sorted (master : List Bar)
    (huniq : master.Pairwise keyNe) (hc : labelsFree master) :
    (clean_corporate_events master).Pairwise keyNe ∧
    ∀ L, ((clean_corporate_events master).filter fun b => b.SYMBOL == L).Pairwise
        fun a b => a.DATE < b.DATE := by
  have hnd : (symbolsOf (sortRows master)).Nodup := List.nodup_dedup _
  constructor
  · unfold clean_corporate_events
    refine List.pairwise_flatten.mpr ⟨?_, ?_⟩
    · intro l hl
      rcases List.mem_map.mp hl with ⟨s, hs, rfl⟩
      exact (cleanSymbol_pairwise_dateLT (groupOf_pairwise_dateLT s huniq)).imp
        fun h => keyNe_of_dateLT h
    · refine List.pairwise_map.mpr (hnd.imp_of_mem ?_)
      intro s1 s2 hs1 hs2 hne x hx y hy
      intro he
      rw [Prod.mk.injEq] at he
      exact cleanSymbol_label_disjoint hc hs1 hs2 hne hx hy he.1
  · intro L
    unfold clean_corporate_events
    rw [List.filter_flatten, List.map_map]
    refine List.pairwise_flatten.mpr ⟨?_, ?_⟩
    · intro l hl
      rcases List.mem_map.mp hl with ⟨s, hs, rfl⟩
      exact List.Pairwise.filter _
        (cleanSymbol_pairwise_dateLT (groupOf_pairwise_dateLT s huniq))
    · refine List.pairwise_map.mpr (hnd.imp_of_mem ?_)
      intro s1 s2 hs1 hs2 hne x hx y hy
      have hx2 := List.mem_filter.mp hx
      have hy2 := List.mem_filter.mp hy
      have hxL : x.SYMBOL = L := beq_iff_eq.mp hx2.2
      have hyL : y.SYMBOL = L := beq_iff_eq.mp hy2.2
      exact absurd (hxL.trans hyL.symm)
        (cleanSymbol_label_disjoint hc hs1 hs2 hne hx2.1 hy2.1)

/-- Claim C2 counterexample: a master file containing the same (symbol, date)
row twice — `clean_corporate_events` never deduplicates, so the output keys
are not unique for *every* input master file. -/
theorem clean_unique_and_sorted_counterexample :
    ¬ ((clean_corporate_events [mkBar "A" 0 100, mkBar "A" 0 100]).Pairwise keyNe ∧
      ∀ L, ((clean_corporate_events [mkBar "A" 0 100, mkBar "A" 0 100]).filter
          fun b => b.SYMBOL == L).Pairwise fun a b => a.DATE < b.DATE) :=
  fun h => absurd h.1 (by with_unfolding_all decide)

/-- Claim C2 amended witness: a two-symbol master with distinct keys and
collision-free symbol names. -/
theorem clean_unique_and_sorted_witness :
    ([mkBar "A" 0 100, mkBar "A" 1 101, mkBar "B" 0 50].Pairwise keyNe ∧
      labelsFree [mkBar "A" 0 100, mkBar "A" 1 101, mkBar "B" 0 50]) ∧
    ((clean_corporate_events [mkBar "A" 0 100, mkBar "A" 1 101, mkBar "B" 0 50]).Pairwise
        keyNe ∧
      ∀ L, ((clean_corporate_events
          [mkBar "A" 0 100, mkBar "A" 1 101, mkBar "B" 0 50]).filter
            fun b => b.SYMBOL == L).Pairwise fun a b => a.DATE < b.DATE) :=
  ⟨⟨by with_unfolding_all decide, by with_unfolding_all decide⟩,
    clean_unique_and_sorted [mkBar "A" 0 100, mkBar "A" 1 101, mkBar "B" 0 50]
      (by with_unfolding_all decide) (by with_unfolding_all decide)⟩

/-- when only one symbol's rows can carry the label `L`, filtering the whole
output by `L` is filtering that symbol's emitted rows. -/
theorem filter_flatten_single {f : String → List Bar} {syms : List String}
    {s L : String} (hnd : syms.Nodup) (hs : s ∈ syms)
    (hothers : ∀ u ∈ syms, u ≠ s → ∀ b ∈ f u, b.SYMBOL ≠ L) :
    ((syms.map f).flatten.filter fun b => b.SYMBOL == L) =
      (f s).filter fun b => b.SYMBOL == L := by
  induction syms with
  | nil => cases hs
  | cons u us ih =>
    rw [List.map_cons, List.flatten_cons, List.filter_append]
    rcases List.mem_cons.mp hs with he | hs2
    · have hrest : ((us.map f).flatten.filter fun b => b.SYMBOL == L) = [] := by
        rw [List.filter_eq_nil_iff]
        intro b hb
        rcases List.mem_flatten.mp hb with ⟨l, hl, hbl⟩
        rcases List.mem_map.mp hl with ⟨u2, hu2, rfl⟩
        have hne : u2 ≠ s := by
          intro h
          exact (List.nodup_cons.mp hnd).1 (he ▸ h ▸ hu2)
        simp only [beq_iff_eq]
        exact hothers u2 (List.mem_cons_of_mem _ hu2) hne b hbl
      rw [hrest, List.append_nil, he]
    · have hne : u ≠ s := by
        intro h
        exact (List.nodup_cons.mp hnd).1 (h ▸ hs2)
      have hu : ((f u).filter fun b => b.SYMBOL == L) = [] := by
        rw [List.filter_eq_nil_iff]
        intro b hb
        simp only [beq_iff_eq]
        exact hothers u (List.mem_cons_self u us) hne b hb
      rw [hu, List.nil_append]
      exact ih (List.nodup_cons.mp hnd).2 hs2 fun u2 hu2 =>
        hothers u2 (List.mem_cons_of_mem _ hu2)

/-- shape of a split symbol's emitted rows. -/
theorem cleanSymbol_eq_split {s : String} {bars : List Bar} {idx : Nat}
    (hex : s ∉ EXCLUDE_SPLIT) (hfirst : (eventPositions bars).head? = some idx) :
    cleanSymbol s bars =
      ((subOf bars).take (idx - GAP_DAYS)).map (setSymbol (s ++ "_PRE")) ++
      ((subOf bars).drop (idx + GAP_DAYS + 1)).map (setSymbol (s ++ "_POST")) := by
  unfold cleanSymbol
  rw [if_neg hex, hfirst]

theorem eventPositions_nil : eventPositions ([] : List Bar) = [] := rfl

/-- Claim C1 theorem. For a symbol `s` off the allow-list whose bad-tick-
filtered series has its first corporate-event flag at position `i`, the
cleaned output's `s_PRE` series is exactly positions `0..i-11` of that
filtered series and its `s_POST` series exactly positions `i+11..end`
(relabeled); the filtered rows at positions `[i-10, i+10]` appear in neither,
and no later event position plays any role. -/
theorem corp_event_first_split (master : List Bar) (s : String) (i : Nat)
    (hex : s ∉ EXCLUDE_SPLIT)
    (hfirst : (eventPositions (groupOf master s)).head? = some i)
    (hc : labelsFree master) :
    ((clean_corporate_events master).filter fun b => b.SYMBOL == s ++ "_PRE") =
        ((subOf (groupOf master s)).take (i - GAP_DAYS)).map
          (setSymbol (s ++ "_PRE")) ∧
    ((clean_corporate_events master).filter fun b => b.SYMBOL == s ++ "_POST") =
        ((subOf (groupOf master s)).drop (i + GAP_DAYS + 1)).map
          (setSymbol (s ++ "_POST")) ∧
    ∀ p, i - GAP_DAYS ≤ p → p ≤ i + GAP_DAYS →
      ∀ b, (subOf (groupOf master s))[p]? = some b →
        b ∉ ((clean_corporate_events master).filter
            fun x => x.SYMBOL == s ++ "_PRE") ∧
        b ∉ ((clean_corporate_events master).filter
            fun x => x.SYMBOL == s ++ "_POST") := by
  have hgrp : groupOf master s ≠ [] := by
    intro h
    rw [h, eventPositions_nil] at hfirst
    cases hfirst
  have hs : s ∈ symbolsOf (sortRows master) := symbol_mem_symbolsOf hgrp
  have hnd : (symbolsOf (sortRows master)).Nodup := List.nodup_dedup _
  have hsplit := cleanSymbol_eq_split hex hfirst
  have hothers : ∀ L, (L = s ∨ L = s ++ "_PRE" ∨ L = s ++ "_POST") →
      ∀ u ∈ symbolsOf (sortRows master), u ≠ s →
        ∀ b ∈ cleanSymbol u (groupOf master u), b.SYMBOL ≠ L := by
    intro L hL u hu hne b hb
    exact label_distinct hc hu hs hne
      (cleanSymbol_label hb fun _ hx => mem_groupOf hx) hL
  have hmain : ∀ L, (L = s ∨ L = s ++ "_PRE" ∨ L = s ++ "_POST") →
      ((clean_corporate_events master).filter fun b => b.SYMBOL == L) =
        (cleanSymbol s (groupOf master s)).filter fun b => b.SYMBOL == L := by
    intro L hL
    exact filter_flatten_single hnd hs (hothers L hL)
  have hpre : ((clean_corporate_events master).filter
      fun b => b.SYMBOL == s ++ "_PRE") =
        ((subOf (groupOf master s)).take (i - GAP_DAYS)).map
          (setSymbol (s ++ "_PRE")) := by
    rw [hmain _ (Or.inr (Or.inl rfl)), hsplit, List.filter_append]
    have h1 : ((((subOf (groupOf master s)).take (i - GAP_DAYS)).map
        (setSymbol (s ++ "_PRE"))).filter fun b => b.SYMBOL == s ++ "_PRE") =
          ((subOf (groupOf master s)).take (i - GAP_DAYS)).map
            (setSymbol (s ++ "_PRE")) := by
      rw [List.filter_eq_self]
      intro a ha
      rcases List.mem_map.mp ha with ⟨o, -, rfl⟩
      exact beq_iff_eq.mpr rfl
    have h2 : ((((subOf (groupOf master s)).drop (i + GAP_DAYS + 1)).map
        (setSymbol (s ++ "_POST"))).filter fun b => b.SYMBOL == s ++ "_PRE") = [] := by
      rw [List.filter_eq_nil_iff]
      intro a ha
      rcases List.mem_map.mp ha with ⟨o, -, rfl⟩
      simp only [beq_iff_eq]
      exact fun h => (string_PRE_ne_POST s s) h.symm
    rw [h1, h2, List.append_nil]
  have hpost : ((clean_corporate_events master).filter
      fun b => b.SYMBOL == s ++ "_POST") =
        ((subOf (groupOf master s)).drop (i + GAP_DAYS + 1)).map
          (setSymbol (s ++ "_POST")) := by
    rw [hmain _ (Or.inr (Or.inr rfl)), hsplit, List.filter_append]
    have h1 : ((((subOf (groupOf master s)).take (i - GAP_DAYS)).map
        (setSymbol (s ++ "_PRE"))).filter fun b => b.SYMBOL == s ++ "_POST") = [] := by
      rw [List.filter_eq_nil_iff]
      intro a ha
      rcases List.mem_map.mp ha with ⟨o, -, rfl⟩
      simp only [beq_iff_eq]
      exact string_PRE_ne_POST s s
    have h2 : ((((subOf (groupOf master s)).drop (i + GAP_DAYS + 1)).map
        (setSymbol (s ++ "_POST"))).filter fun b => b.SYMBOL == s ++ "_POST") =
          ((subOf (groupOf master s)).drop (i + GAP_DAYS + 1)).map
            (setSymbol (s ++ "_POST")) := by
      rw [List.filter_eq_self]
      intro a ha
      rcases List.mem_map.mp ha with ⟨o, -, rfl⟩
      exact beq_iff_eq.mpr rfl
    rw [h1, h2, List.nil_append]
  refine ⟨hpre, hpost, ?_⟩
  intro p _ _ b hb
  have hbmem : b ∈ subOf (groupOf master s) := List.mem_iff_getElem?.mpr ⟨p, hb⟩
  have hbs : b.SYMBOL = s := mem_groupOf (mem_subOf hbmem)
  constructor
  · rw [hpre]
    intro hmem
    rcases List.mem_map.mp hmem with ⟨o, -, he⟩
    have hbl : b.SYMBOL = s ++ "_PRE" := he ▸ setSymbol_SYMBOL (s ++ "_PRE") o
    rw [hbs] at hbl
    exact (hc s hs s hs).1 hbl
  · rw [hpost]
    intro hmem
    rcases List.mem_map.mp hmem with ⟨o, -, he⟩
    have hbl : b.SYMBOL = s ++ "_POST" := he ▸ setSymbol_SYMBOL (s ++ "_POST") o
    rw [hbs] at hbl
    exact (hc s hs s hs).2 hbl

/-- Claim C1 witness: symbol `X` (23 bars, +50% jump at position 11 with a
stable confirmation window, no bad ticks) splits into a 1-bar `X_PRE` head
and a 1-bar `X_POST` tail, the 21 bars at positions 1..21 being dropped. -/
theorem corp_event_first_split_witness :
    ("X" ∉ EXCLUDE_SPLIT ∧
      (eventPositions (groupOf (seriesOf "X" splitCloses) "X")).head? = some 11 ∧
      labelsFree (seriesOf "X" splitCloses)) ∧
    (((clean_corporate_events (seriesOf "X" splitCloses)).filter
        fun b => b.SYMBOL == "X" ++ "_PRE") =
          ((subOf (groupOf (seriesOf "X" splitCloses) "X")).take (11 - GAP_DAYS)).map
            (setSymbol ("X" ++ "_PRE")) ∧
      ((clean_corporate_events (seriesOf "X" splitCloses)).filter
        fun b => b.SYMBOL == "X" ++ "_POST") =
          ((subOf (groupOf (seriesOf "X" splitCloses) "X")).drop
            (11 + GAP_DAYS + 1)).map (setSymbol ("X" ++ "_POST")) ∧
      ∀ p, 11 - GAP_DAYS ≤ p → p ≤ 11 + GAP_DAYS →
        ∀ b, (subOf (groupOf (seriesOf "X" splitCloses) "X"))[p]? = some b →
          b ∉ ((clean_corporate_events (seriesOf "X" splitCloses)).filter
              fun x => x.SYMBOL == "X" ++ "_PRE") ∧
          b ∉ ((clean_corporate_events (seriesOf "X" splitCloses)).filter
              fun x => x.SYMBOL == "X" ++ "_POST")) :=
  ⟨⟨by decide, by with_unfolding_all decide, by with_unfolding_all decide⟩,
    corp_event_first_split (seriesOf "X" splitCloses) "X" 11 (by decide)
      (by with_unfolding_all decide) (by with_unfolding_all decide)⟩

/-! ## Bad ticks never survive into the output -/

theorem mem_subOf_pair {bars : List Bar} {b : Bar} (h : b ∈ subOf bars) :
    ∃ t, bars[t]? = some b ∧ suspected_bad_tick (closesOf bars) t = false := by
  rcases List.mem_map.mp h with ⟨p, hp, rfl⟩
  rcases List.mem_filter.mp hp with ⟨henum, hflag⟩
  refine ⟨p.1, List.mem_enum_iff_getElem?.mp henum, ?_⟩
  rwa [Bool.not_eq_true'] at hflag

/-- Claim C4 theorem. A group row whose 1-bar return exceeds 0.80 in absolute
value while its immediate successor's 1-bar return (computed on the original
index sequence, before any removal) stays below 0.10 in absolute value never
appears in the cleaned output. -/
theorem bad_tick_never_in_output (master : List Bar) (s : String) (t : Nat) (b : Bar)
    (hmem : (groupOf master s)[t]? = some b)
    (h1 : optAbsGt (ret_1d (closesOf (groupOf master s)) t) (8 / 10) = true)
    (h2 : optAbsLt (ret_1d (closesOf (groupOf master s)) (t + 1)) (1 / 10) = true)
    (huniq : master.Pairwise keyNe) (hc : labelsFree master) :
    b ∉ clean_corporate_events master := by
  intro hb
  have hbmem : b ∈ groupOf master s := List.mem_iff_getElem?.mpr ⟨t, hmem⟩
  have hbs : b.SYMBOL = s := mem_groupOf hbmem
  have hsmem : s ∈ symbolsOf (sortRows master) :=
    symbol_mem_symbolsOf fun h => by
      rw [h] at hmem
      rw [List.getElem?_nil] at hmem
      cases hmem
  rcases List.mem_flatten.mp hb with ⟨l, hl, hbl⟩
  rcases List.mem_map.mp hl with ⟨u, hu, rfl⟩
  rcases mem_cleanSymbol hbl with hsub | ⟨o, ho, he⟩ | ⟨o, ho, he⟩
  · have hbu : b.SYMBOL = u := mem_groupOf (mem_subOf hsub)
    have hus : u = s := by rw [← hbu, hbs]
    rw [hus] at hsub
    rcases mem_subOf_pair hsub with ⟨t2, hmem2, hbad2⟩
    have hbadt : suspected_bad_tick (closesOf (groupOf master s)) t = true := by
      unfold suspected_bad_tick
      rw [h1, h2]
      rfl
    have hdates := groupOf_pairwise_dateLT s huniq
    rcases List.getElem?_eq_some_iff.mp hmem with ⟨ht, hbt⟩
    rcases List.getElem?_eq_some_iff.mp hmem2 with ⟨ht2, hbt2⟩
    rcases Nat.lt_trichotomy t t2 with hlt | heq | hlt
    · have := List.pairwise_iff_getElem.mp hdates t t2 ht ht2 hlt
      rw [hbt, hbt2] at this
      exact absurd this (lt_irrefl _)
    · rw [heq, hbad2] at hbadt
      cases hbadt
    · have := List.pairwise_iff_getElem.mp hdates t2 t ht2 ht hlt
      rw [hbt, hbt2] at this
      exact absurd this (lt_irrefl _)
  · have hbl2 : b.SYMBOL = u ++ "_PRE" := he ▸ setSymbol_SYMBOL _ _
    rw [hbs] at hbl2
    exact (hc s hsmem u hu).1 hbl2
  · have hbl2 : b.SYMBOL = u ++ "_POST" := he ▸ setSymbol_SYMBOL _ _
    rw [hbs] at hbl2
    exact (hc s hsmem u hu).2 hbl2

/-- Claim C4 witness: the series `Y = [50, 93, 92]` has a one-bar spike at
position 1 (return +86%) immediately reverted (successor return ≈ −1.1%);
that bar is absent from the cleaned output. -/
theorem bad_tick_never_in_output_witness :
    ((groupOf (seriesOf "Y" [50, 93, 92]) "Y")[1]? = some (mkBar "Y" 1 93) ∧
      optAbsGt (ret_1d (closesOf (groupOf (seriesOf "Y" [50, 93, 92]) "Y")) 1)
        (8 / 10) = true ∧
      optAbsLt (ret_1d (closesOf (groupOf (seriesOf "Y" [50, 93, 92]) "Y")) (1 + 1))
        (1 / 10) = true ∧
      (seriesOf "Y" [50, 93, 92]).Pairwise keyNe ∧
      labelsFree (seriesOf "Y" [50, 93, 92])) ∧
    mkBar "Y" 1 93 ∉ clean_corporate_events (seriesOf "Y" [50, 93, 92]) :=
  ⟨⟨by with_unfolding_all decide, by with_unfolding_all decide,
      by with_unfolding_all decide, by with_unfolding_all decide,
      by with_unfolding_all decide⟩,
    bad_tick_never_in_output (seriesOf "Y" [50, 93, 92]) "Y" 1 (mkBar "Y" 1 93)
      (by with_unfolding_all decide) (by with_unfolding_all decide)
      (by with_unfolding_all decide) (by with_unfolding_all decide)
      (by with_unfolding_all decide)⟩

/-- Claim C8 theorem. `integrate_regimes` assigns a regime id to a row iff its
date is not after the cutoff and lies in some inclusive `[start_date,
end_date]` range of the regime table; a date strictly after the cutoff always
gets the missing regime. -/
theorem regime_cutoff_lookahead (df : List Bar) (reg : List RegimeRow)
    (mac : List GroupRow) (cutoff : Int) :
    ∀ tb ∈ integrate_regimes df reg mac cutoff,
      (tb.regime.isSome = true ↔
        (tb.bar.DATE ≤ cutoff ∧
          ∃ r ∈ reg, r.start_date ≤ tb.bar.DATE ∧ tb.bar.DATE ≤ r.end_date)) ∧
      (cutoff < tb.bar.DATE → tb.regime = none) := by
  intro tb htb
  rcases List.mem_map.mp htb with ⟨b, _, rfl⟩
  simp only [map_reg]
  by_cases hgt : b.DATE > cutoff
  · rw [if_pos hgt]
    constructor
    · simp only [Option.isSome_none, Bool.false_eq_true, false_iff]
      rintro ⟨hle, -⟩
      omega
    · intro
      rfl
  · rw [if_neg hgt]
    constructor
    · rw [Option.isSome_map']
      rw [List.head?_isSome, Ne, List.filter_eq_nil_iff]
      push_neg
      constructor
      · rintro ⟨r, hr, hpr⟩
        simp only [Bool.and_eq_true, decide_eq_true_eq] at hpr
        exact ⟨by omega, r, hr, hpr⟩
      · rintro ⟨-, r, hr, h1, h2⟩
        exact ⟨r, hr, by simp [h1, h2]⟩
    · intro hlt
      omega

/-- Claim C8 witness: a date inside a range and on the cutoff side gets its
regime id; applied to a concrete one-row frame. -/
theorem regime_cutoff_lookahead_witness :
    (⟨mkBar "A" 5 100, some 1, some 2⟩ : TaggedBar) ∈
        integrate_regimes [mkBar "A" 5 100] [⟨0, 10, 1⟩] [⟨1, 2⟩] 7 ∧
    ((((⟨mkBar "A" 5 100, some 1, some 2⟩ : TaggedBar).regime.isSome = true ↔
        ((5 : Int) ≤ 7 ∧
          ∃ r ∈ [(⟨0, 10, 1⟩ : RegimeRow)], r.start_date ≤ 5 ∧ 5 ≤ r.end_date)) ∧
      ((7 : Int) < 5 → (⟨mkBar "A" 5 100, some 1, some 2⟩ : TaggedBar).regime = none))) :=
  ⟨by with_unfolding_all decide,
    regime_cutoff_lookahead [mkBar "A" 5 100] [⟨0, 10, 1⟩] [⟨1, 2⟩] 7
      ⟨mkBar "A" 5 100, some 1, some 2⟩ (by with_unfolding_all decide)⟩

/-! ## Trade selection: ranking, champion choice, failure modes -/

instance : IsTotal (FeatRow × ℚ) rankLE := by
  constructor
  intro a b
  rcases lt_trichotomy a.2 b.2 with h | h | h
  · exact Or.inr (Or.inl h)
  · rcases le_total a.1.SYMBOL.data b.1.SYMBOL.data with hs | hs
    · exact Or.inl (Or.inr ⟨h, hs⟩)
    · exact Or.inr (Or.inr ⟨h.symm, hs⟩)
  · exact Or.inl (Or.inl h)

instance : IsTrans (FeatRow × ℚ) rankLE := by
  constructor
  intro a b c hab hbc
  rcases hab with h1 | ⟨e1, s1⟩
  · rcases hbc with h2 | ⟨e2, s2⟩
    · exact Or.inl (lt_trans h2 h1)
    · exact Or.inl (e2 ▸ h1)
  · rcases hbc with h2 | ⟨e2, s2⟩
    · exact Or.inl (e1 ▸ h2)
    · exact Or.inr ⟨e1.trans e2, le_trans s1 s2⟩

instance : IsTotal TradeRow predGE := by
  constructor
  intro a b
  rcases le_total a.pred b.pred with h | h
  · exact Or.inr h
  · exact Or.inl h

instance : IsTrans TradeRow predGE := by
  constructor
  intro a b c hab hbc
  exact le_trans hbc hab

theorem foldl_better_spec (x : Int × ℚ × List (FeatRow × ℚ))
    (xs : List (Int × ℚ × List (FeatRow × ℚ))) :
    (xs.foldl better x = x ∨ xs.foldl better x ∈ xs) ∧
      x.2.1 ≤ (xs.foldl better x).2.1 ∧
      ∀ y ∈ xs, y.2.1 ≤ (xs.foldl better x).2.1 := by
  induction xs generalizing x with
  | nil => exact ⟨Or.inl rfl, le_refl _, fun y hy => absurd hy (List.not_mem_nil y)⟩
  | cons y ys ih =>
    rw [List.foldl_cons]
    rcases ih (better x y) with ⟨hmem, hle, hall⟩
    have hxy : x.2.1 ≤ (better x y).2.1 ∧ y.2.1 ≤ (better x y).2.1 := by
      unfold better
      split
      · exact ⟨le_of_lt (by assumption), le_refl _⟩
      · exact ⟨le_refl _, le_of_not_lt (by assumption)⟩
    refine ⟨?_, le_trans hxy.1 hle, ?_⟩
    · rcases hmem with he | hm
      · rw [he]
        unfold better
        split
        · exact Or.inr (List.mem_cons_self y ys)
        · exact Or.inl rfl
      · exact Or.inr (List.mem_cons_of_mem y hm)
    · intro z hz
      rcases List.mem_cons.mp hz with he | hm
      · rw [he]
        exact le_trans hxy.2 hle
      · exact hall z hm

theorem argmaxFirst_spec {l : List (Int × ℚ × List (FeatRow × ℚ))}
    {c : Int × ℚ × List (FeatRow × ℚ)} (h : argmaxFirst l = some c) :
    c ∈ l ∧ ∀ y ∈ l, y.2.1 ≤ c.2.1 := by
  match l, h with
  | x :: xs, h =>
    have hc : xs.foldl better x = c := by
      unfold argmaxFirst at h
      exact Option.some.inj h
    rcases foldl_better_spec x xs with ⟨hmem, hle, hall⟩
    rw [hc] at hmem hle hall
    constructor
    · rcases hmem with he | hm
      · exact he ▸ List.mem_cons_self x xs
      · exact List.mem_cons_of_mem x hm
    · intro y hy
      rcases List.mem_cons.mp hy with he | hm
      · exact he ▸ hle
      · exact hall y hm

theorem argmaxFirst_eq_none {l : List (Int × ℚ × List (FeatRow × ℚ))} :
    argmaxFirst l = none ↔ l = [] := by
  cases l with
  | nil => exact ⟨fun _ => rfl, fun _ => rfl⟩
  | cons x xs =>
    constructor
    · intro h
      cases h
    · intro h
      cases h

theorem scoreCluster_eq_some {snap : List FeatRow} {m : Model} {sc : ℚ}
    {tk : List (FeatRow × ℚ)} (h : scoreCluster snap m = some (sc, tk)) :
    ∃ preds, m.predict (featMatrix snap) = some preds ∧
      preds.length = snap.length ∧
      sc = meanQ (((rankRows snap preds).take TOP_K).map Prod.snd) ∧
      tk = (rankRows snap preds).take TOP_K := by
  unfold scoreCluster at h
  cases hp : m.predict (featMatrix snap) with
  | none =>
    simp only [hp] at h
    exact Option.noConfusion h
  | some preds =>
    simp only [hp] at h
    by_cases hl : preds.length = snap.length
    · rw [if_pos hl] at h
      have h2 := Option.some.inj h
      exact ⟨preds, rfl, hl, (congrArg Prod.fst h2).symm, (congrArg Prod.snd h2).symm⟩
    · rw [if_neg hl] at h
      cases h

theorem mem_scoredClusters {models : List (Int × Model)} {snap : List FeatRow}
    {c : Int × ℚ × List (FeatRow × ℚ)} :
    c ∈ scoredClusters models snap ↔
      ∃ m, (c.1, m) ∈ models ∧ scoreCluster snap m = some (c.2.1, c.2.2) := by
  unfold scoredClusters
  rw [List.mem_filterMap]
  constructor
  · rintro ⟨p, hp, he⟩
    cases hs : scoreCluster snap p.2 with
    | none => rw [hs] at he; cases he
    | some r =>
      rw [hs] at he
      have h2 := Option.some.inj he
      refine ⟨p.2, ?_, ?_⟩
      · have h1 : c.1 = p.1 := by rw [← h2]
        rw [h1]
        exact hp
      · have hr1 : c.2.1 = r.1 := by rw [← h2]
        have hr2 : c.2.2 = r.2 := by rw [← h2]
        rw [hs, hr1, hr2]
  · rintro ⟨m, hm, hs⟩
    refine ⟨(c.1, m), hm, ?_⟩
    rw [hs]
    rfl

theorem tradeSheet_length (champion : Int) (topk : List (FeatRow × ℚ)) (ed : Int) :
    (tradeSheet champion topk ed).length = topk.length := by
  unfold tradeSheet
  rw [List.length_insertionSort, List.length_map]

theorem mem_tradeSheet {champion : Int} {topk : List (FeatRow × ℚ)} {ed : Int}
    {row : TradeRow} (h : row ∈ tradeSheet champion topk ed) :
    row.cluster = champion ∧ row.weight = 1 / (TOP_K : ℚ) := by
  unfold tradeSheet at h
  have h2 := (List.perm_insertionSort predGE _).subset h
  rcases List.mem_map.mp h2 with ⟨rp, -, he⟩
  exact ⟨by rw [← he], by rw [← he]⟩

/-- Claim C5 theorem. The per-cluster ranking used by the selector is a
permutation of the scored snapshot ordered by score descending with ties
broken by symbol ascending (so equal scores put the lexicographically smaller
symbol first), and the cluster's selection is exactly the first `TOP_K` rows
of this order. -/
theorem topk_ranking_deterministic (snap : List FeatRow) (preds : List ℚ) (m : Model)
    (hp : m.predict (featMatrix snap) = some preds)
    (hlen : preds.length = snap.length) :
    (rankRows snap preds).Perm (snap.zip preds) ∧
    (∀ i j (hi : i < (rankRows snap preds).length)
        (hj : j < (rankRows snap preds).length), i < j →
      ((rankRows snap preds)[j].2 < (rankRows snap preds)[i].2 ∨
        ((rankRows snap preds)[i].2 = (rankRows snap preds)[j].2 ∧
          (rankRows snap preds)[i].1.SYMBOL.data ≤
            (rankRows snap preds)[j].1.SYMBOL.data))) ∧
    scoreCluster snap m =
      some (meanQ (((rankRows snap preds).take TOP_K).map Prod.snd),
        (rankRows snap preds).take TOP_K) := by
  refine ⟨List.perm_insertionSort rankLE _, ?_, ?_⟩
  · intro i j hi hj hij
    have hs : (rankRows snap preds).Pairwise rankLE :=
      List.sorted_insertionSort rankLE _
    exact List.pairwise_iff_getElem.mp hs i j hi hj hij
  · simp only [scoreCluster, hp]
    rw [if_pos hlen]

/-- Claim C5 witness: two rows with the same predicted score are ordered by
symbol, `A` before `B`, even though `B` precedes `A` in the snapshot. -/
theorem topk_ranking_deterministic_witness :
    ((constModel 1).predict (featMatrix [mkFeatRow "B" 0, mkFeatRow "A" 0]) =
        some [1, 1] ∧
      ([1, 1] : List ℚ).length = [mkFeatRow "B" 0, mkFeatRow "A" 0].length ∧
      rankRows [mkFeatRow "B" 0, mkFeatRow "A" 0] [1, 1] =
        [(mkFeatRow "A" 0, 1), (mkFeatRow "B" 0, 1)]) ∧
    ((rankRows [mkFeatRow "B" 0, mkFeatRow "A" 0] [1, 1]).Perm
        ([mkFeatRow "B" 0, mkFeatRow "A" 0].zip [1, 1]) ∧
      (∀ i j (hi : i < (rankRows [mkFeatRow "B" 0, mkFeatRow "A" 0] [1, 1]).length)
          (hj : j < (rankRows [mkFeatRow "B" 0, mkFeatRow "A" 0] [1, 1]).length),
        i < j →
        ((rankRows [mkFeatRow "B" 0, mkFeatRow "A" 0] [1, 1])[j].2 <
            (rankRows [mkFeatRow "B" 0, mkFeatRow "A" 0] [1, 1])[i].2 ∨
          ((rankRows [mkFeatRow "B" 0, mkFeatRow "A" 0] [1, 1])[i].2 =
              (rankRows [mkFeatRow "B" 0, mkFeatRow "A" 0] [1, 1])[j].2 ∧
            (rankRows [mkFeatRow "B" 0, mkFeatRow "A" 0] [1, 1])[i].1.SYMBOL.data ≤
              (rankRows [mkFeatRow "B" 0, mkFeatRow "A" 0] [1, 1])[j].1.SYMBOL.data))) ∧
      scoreCluster [mkFeatRow "B" 0, mkFeatRow "A" 0] (constModel 1) =
        some (meanQ (((rankRows [mkFeatRow "B" 0, mkFeatRow "A" 0] [1, 1]).take
            TOP_K).map Prod.snd),
          (rankRows [mkFeatRow "B" 0, mkFeatRow "A" 0] [1, 1]).take TOP_K)) :=
  ⟨⟨by with_unfolding_all rfl, by with_unfolding_all decide,
      by with_unfolding_all decide⟩,
    topk_ranking_deterministic [mkFeatRow "B" 0, mkFeatRow "A" 0] [1, 1]
      (constModel 1) (by with_unfolding_all rfl) (by with_unfolding_all decide)⟩

/-- Claim C6 theorem. When `live_trade_decision` returns a trade sheet, it is
the sheet of a scored cluster whose mean top-K score is maximal among all
clusters that produced usable predictions, and every returned row carries that
champion's cluster id. -/
theorem champion_maximal (df : List FeatRow) (models : List (Int × Model))
    (dd ed : Int) (t : List TradeRow)
    (h : live_trade_decision df models dd ed = .ok t) :
    ∃ c ∈ scoredClusters models (snapshotOf df dd),
      (∀ u ∈ scoredClusters models (snapshotOf df dd), u.2.1 ≤ c.2.1) ∧
      t = tradeSheet c.1 c.2.2 ed ∧ ∀ row ∈ t, row.cluster = c.1 := by
  unfold live_trade_decision at h
  by_cases h1 : (snapshotOf df dd).isEmpty
  · rw [if_pos h1] at h
    cases h
  rw [if_neg h1] at h
  by_cases h2 : models.isEmpty
  · rw [if_pos h2] at h
    cases h
  rw [if_neg h2] at h
  cases hA : argmaxFirst (scoredClusters models (snapshotOf df dd)) with
  | none =>
    rw [hA] at h
    cases h
  | some c =>
    rw [hA] at h
    have ht : t = tradeSheet c.1 c.2.2 ed := (Except.ok.inj h).symm
    rcases argmaxFirst_spec hA with ⟨hmem, hmax⟩
    refine ⟨c, hmem, hmax, ht, ?_⟩
    intro row hrow
    rw [ht] at hrow
    exact (mem_tradeSheet hrow).1

/-- Claim C6 witness: of two clusters with mean scores 1/2 and 3/4, cluster 2
wins and the sheet rows carry cluster id 2. -/
theorem champion_maximal_witness :
    live_trade_decision [mkFeatRow "A" 0]
        [(1, constModel (1 / 2)), (2, constModel (3 / 4))] 0 1 =
      .ok [⟨"A", 3 / 4, 1 / 5, 1, 2⟩] ∧
    ∃ c ∈ scoredClusters [(1, constModel (1 / 2)), (2, constModel (3 / 4))]
        (snapshotOf [mkFeatRow "A" 0] 0),
      (∀ u ∈ scoredClusters [(1, constModel (1 / 2)), (2, constModel (3 / 4))]
          (snapshotOf [mkFeatRow "A" 0] 0), u.2.1 ≤ c.2.1) ∧
      [(⟨"A", 3 / 4, 1 / 5, 1, 2⟩ : TradeRow)] = tradeSheet c.1 c.2.2 1 ∧
      ∀ row ∈ [(⟨"A", 3 / 4, 1 / 5, 1, 2⟩ : TradeRow)], row.cluster = c.1 :=
  ⟨by with_unfolding_all rfl,
    champion_maximal [mkFeatRow "A" 0]
      [(1, constModel (1 / 2)), (2, constModel (3 / 4))] 0 1
      [⟨"A", 3 / 4, 1 / 5, 1, 2⟩] (by with_unfolding_all rfl)⟩

theorem nodup_key_unique {l : List (Int × Model)} (hnd : (l.map Prod.fst).Nodup)
    {k : Int} {a b : Model} (ha : (k, a) ∈ l) (hb : (k, b) ∈ l) : a = b := by
  induction l with
  | nil => cases ha
  | cons x xs ih =>
    rw [List.map_cons, List.nodup_cons] at hnd
    rcases List.mem_cons.mp ha with hea | ha2 <;> rcases List.mem_cons.mp hb with heb | hb2
    · exact congrArg Prod.snd (hea.trans heb.symm)
    · exfalso
      have hk : x.1 = k := by rw [← hea]
      apply hnd.1
      rw [hk]
      exact List.mem_map.mpr ⟨(k, b), hb2, rfl⟩
    · exfalso
      have hk : x.1 = k := by rw [← heb]
      apply hnd.1
      rw [hk]
      exact List.mem_map.mpr ⟨(k, a), ha2, rfl⟩
    · exact ih hnd.2 ha2 hb2

/-- Claim C7 theorem. `live_trade_decision` fails (with an error) iff the
decision-date snapshot is empty after the missing-feature drop, the model
registry is empty, or no cluster produced a usable score; a cluster whose
model raises is excluded from champion consideration, and when the snapshot
is non-empty and some other cluster scored, the run still returns a trade
sheet whose rows never carry the failed cluster's id. -/
theorem failure_modes (df : List FeatRow) (models : List (Int × Model))
    (dd ed : Int) (hnd : (models.map Prod.fst).Nodup) :
    ((∃ e, live_trade_decision df models dd ed = .error e) ↔
      (snapshotOf df dd = [] ∨ models = [] ∨
        scoredClusters models (snapshotOf df dd) = [])) ∧
    ∀ mid m, (mid, m) ∈ models → scoreCluster (snapshotOf df dd) m = none →
      mid ∉ (scoredClusters models (snapshotOf df dd)).map Prod.fst ∧
      (snapshotOf df dd ≠ [] → scoredClusters models (snapshotOf df dd) ≠ [] →
        ∃ t, live_trade_decision df models dd ed = .ok t ∧
          ∀ row ∈ t, row.cluster ≠ mid) := by
  constructor
  · constructor
    · rintro ⟨e, he⟩
      unfold live_trade_decision at he
      by_cases h1 : (snapshotOf df dd).isEmpty
      · exact Or.inl (List.isEmpty_iff.mp h1)
      · rw [if_neg h1] at he
        by_cases h2 : models.isEmpty
        · exact Or.inr (Or.inl (List.isEmpty_iff.mp h2))
        · rw [if_neg h2] at he
          cases hA : argmaxFirst (scoredClusters models (snapshotOf df dd)) with
          | none => exact Or.inr (Or.inr (argmaxFirst_eq_none.mp hA))
          | some c =>
            rw [hA] at he
            cases he
    · intro hcase
      unfold live_trade_decision
      by_cases h1 : (snapshotOf df dd).isEmpty
      · rw [if_pos h1]
        exact ⟨_, rfl⟩
      · rw [if_neg h1]
        by_cases h2 : models.isEmpty
        · rw [if_pos h2]
          exact ⟨_, rfl⟩
        · rw [if_neg h2]
          have hsc : scoredClusters models (snapshotOf df dd) = [] := by
            rcases hcase with h | h | h
            · exact absurd (List.isEmpty_iff.mpr h) h1
            · exact absurd (List.isEmpty_iff.mpr h) h2
            · exact h
          rw [hsc]
          exact ⟨_, rfl⟩
  · intro mid m hm hfail
    have hnotin : mid ∉ (scoredClusters models (snapshotOf df dd)).map Prod.fst := by
      intro hin
      rcases List.mem_map.mp hin with ⟨c, hc, hc1⟩
      rcases mem_scoredClusters.mp hc with ⟨m2, hm2, hs2⟩
      rw [hc1] at hm2
      rw [← nodup_key_unique hnd hm hm2] at hs2
      rw [hfail] at hs2
      cases hs2
    refine ⟨hnotin, ?_⟩
    intro hsnap hscored
    unfold live_trade_decision
    rw [if_neg fun h => hsnap (List.isEmpty_iff.mp h)]
    have hmodels : models ≠ [] := by
      intro h
      rw [h] at hm
      cases hm
    rw [if_neg fun h => hmodels (List.isEmpty_iff.mp h)]
    cases hA : argmaxFirst (scoredClusters models (snapshotOf df dd)) with
    | none => exact absurd (argmaxFirst_eq_none.mp hA) hscored
    | some c =>
      refine ⟨tradeSheet c.1 c.2.2 ed, rfl, ?_⟩
      intro row hrow
      rw [(mem_tradeSheet hrow).1]
      intro he
      apply hnotin
      rw [← he]
      exact List.mem_map.mpr ⟨c, (argmaxFirst_spec hA).1, rfl⟩

/-- Claim C7 witness: cluster 1's model raises, cluster 2 scores; the run
still succeeds and cluster 1 never appears in the sheet. -/
theorem failure_modes_witness :
    ([(1, failingModel), (2, constModel (1 / 2))].map Prod.fst).Nodup ∧
    (((∃ e, live_trade_decision [mkFeatRow "A" 0]
          [(1, failingModel), (2, constModel (1 / 2))] 0 1 = .error e) ↔
        (snapshotOf [mkFeatRow "A" 0] 0 = [] ∨
          ([(1, failingModel), (2, constModel (1 / 2))] :
            List (Int × Model)) = [] ∨
          scoredClusters [(1, failingModel), (2, constModel (1 / 2))]
            (snapshotOf [mkFeatRow "A" 0] 0) = [])) ∧
      ∀ mid m, (mid, m) ∈ [(1, failingModel), (2, constModel (1 / 2))] →
        scoreCluster (snapshotOf [mkFeatRow "A" 0] 0) m = none →
        mid ∉ (scoredClusters [(1, failingModel), (2, constModel (1 / 2))]
            (snapshotOf [mkFeatRow "A" 0] 0)).map Prod.fst ∧
        (snapshotOf [mkFeatRow "A" 0] 0 ≠ [] →
          scoredClusters [(1, failingModel), (2, constModel (1 / 2))]
            (snapshotOf [mkFeatRow "A" 0] 0) ≠ [] →
          ∃ t, live_trade_decision [mkFeatRow "A" 0]
              [(1, failingModel), (2, constModel (1 / 2))] 0 1 = .ok t ∧
            ∀ row ∈ t, row.cluster ≠ mid)) :=
  ⟨by with_unfolding_all decide,
    failure_modes [mkFeatRow "A" 0] [(1, failingModel), (2, constModel (1 / 2))]
      0 1 (by with_unfolding_all decide)⟩

theorem sum_map_const {α : Type} (l : List α) (f : α → ℚ) (w : ℚ)
    (h : ∀ x ∈ l, f x = w) : (l.map f).sum = l.length * w := by
  induction l with
  | nil => simp
  | cons x xs ih =>
    rw [List.map_cons, List.sum_cons, h x (List.mem_cons_self x xs),
      ih fun y hy => h y (List.mem_cons_of_mem x hy), List.length_cons]
    push_cast
    ring

/-- Claim C10 theorem. With a non-empty snapshot of `n < TOP_K` rows (and at
least one cluster producing a usable score), the run still succeeds, the
sheet has exactly `n` rows, every weight is exactly `1/TOP_K`, and the
weights sum to `n/TOP_K < 1`. -/
theorem small_snapshot_weights (df : List FeatRow) (models : List (Int × Model))
    (dd ed : Int) (n : Nat)
    (hn : (snapshotOf df dd).length = n) (h0 : 0 < n) (hK : n < TOP_K)
    (hus : ∃ p ∈ models, scoreCluster (snapshotOf df dd) p.2 ≠ none) :
    ∃ t, live_trade_decision df models dd ed = .ok t ∧
      t.length = n ∧
      (∀ row ∈ t, row.weight = 1 / (TOP_K : ℚ)) ∧
      (t.map TradeRow.weight).sum = (n : ℚ) / (TOP_K : ℚ) ∧
      (t.map TradeRow.weight).sum < 1 := by
  rcases hus with ⟨p, hp, hscore⟩
  rcases Option.ne_none_iff_exists'.mp hscore with ⟨r, hr⟩
  have hmem : (p.1, r.1, r.2) ∈ scoredClusters models (snapshotOf df dd) := by
    refine mem_scoredClusters.mpr ⟨p.2, hp, ?_⟩
    rw [hr]
  have hscne : scoredClusters models (snapshotOf df dd) ≠ [] :=
    List.ne_nil_of_mem hmem
  have hsnapne : snapshotOf df dd ≠ [] := by
    intro h
    rw [h] at hn
    simp only [List.length_nil] at hn
    omega
  have hmodne : models ≠ [] := List.ne_nil_of_mem hp
  cases hA : argmaxFirst (scoredClusters models (snapshotOf df dd)) with
  | none => exact absurd (argmaxFirst_eq_none.mp hA) hscne
  | some c =>
    have hlive : live_trade_decision df models dd ed = .ok (tradeSheet c.1 c.2.2 ed) := by
      unfold live_trade_decision
      rw [if_neg fun h => hsnapne (List.isEmpty_iff.mp h),
        if_neg fun h => hmodne (List.isEmpty_iff.mp h), hA]
    rcases mem_scoredClusters.mp (argmaxFirst_spec hA).1 with ⟨m, hm, hsome⟩
    rcases scoreCluster_eq_some hsome with ⟨preds, hpred, hlen, hsc, htk⟩
    have hlength : (tradeSheet c.1 c.2.2 ed).length = n := by
      rw [tradeSheet_length, htk, List.length_take]
      unfold rankRows
      rw [List.length_insertionSort, List.length_zip, hlen, hn, Nat.min_self]
      exact Nat.min_eq_right (Nat.le_of_lt hK)
    have hweights : ∀ row ∈ tradeSheet c.1 c.2.2 ed, row.weight = 1 / (TOP_K : ℚ) :=
      fun row hrow => (mem_tradeSheet hrow).2
    have hsum : ((tradeSheet c.1 c.2.2 ed).map TradeRow.weight).sum =
        (n : ℚ) / (TOP_K : ℚ) := by
      rw [sum_map_const _ _ _ hweights, hlength, mul_one_div]
    refine ⟨tradeSheet c.1 c.2.2 ed, hlive, hlength, hweights, hsum, ?_⟩
    rw [hsum]
    rw [div_lt_one (by norm_num [TOP_K])]
    exact_mod_cast hK

/-- Claim C10 witness: a one-row snapshot with `TOP_K = 5` yields a one-row
sheet with weight exactly `1/5` and total weight `1/5 < 1`. -/
theorem small_snapshot_weights_witness :
    ((snapshotOf [mkFeatRow "A" 0] 0).length = 1 ∧ 0 < 1 ∧ 1 < TOP_K ∧
      ∃ p ∈ [(3, constModel (1 / 2))],
        scoreCluster (snapshotOf [mkFeatRow "A" 0] 0) p.2 ≠ none) ∧
    ∃ t, live_trade_decision [mkFeatRow "A" 0] [(3, constModel (1 / 2))] 0 1 =
        .ok t ∧
      t.length = 1 ∧
      (∀ row ∈ t, row.weight = 1 / (TOP_K : ℚ)) ∧
      (t.map TradeRow.weight).sum = (1 : ℚ) / (TOP_K : ℚ) ∧
      (t.map TradeRow.weight).sum < 1 :=
  ⟨⟨by with_unfolding_all decide, by decide, by decide,
      ⟨(3, constModel (1 / 2)), List.mem_singleton.mpr rfl,
        by with_unfolding_all decide⟩⟩,
    by
      have h := small_snapshot_weights [mkFeatRow "A" 0] [(3, constModel (1 / 2))]
        0 1 1 (by with_unfolding_all decide) (by decide) (by decide)
        ⟨(3, constModel (1 / 2)), List.mem_singleton.mpr rfl,
          by with_unfolding_all decide⟩
      exact_mod_cast h⟩

end StockPipeline
